import Mathlib

/-!
Shallow embedding of `src/models/vanilla_vae.py` (class `VanillaVAE`).

Tensors are modelled as a shape (a list of dimension sizes) together with a
data function from multi-indices to real numbers.  The torch layers used by
the source (`nn.Conv2d`, `nn.BatchNorm2d`, `nn.LeakyReLU`, `nn.Linear`,
`nn.ConvTranspose2d`, `torch.flatten`, `Tensor.view`) are given their
documented value semantics; shape mismatches that would raise a torch
`RuntimeError` are modelled by `Option.none`.  The Python-level
`AttributeError` raised by the `if not self.built` guards is modelled by an
explicit error value.  Random draws (`torch.randn`, `torch.randn_like`) and
random parameter initialisation are modelled as explicit inputs.
-/

set_option maxHeartbeats 1000000

noncomputable section

open Finset

/-- A tensor: a shape together with data indexed by multi-indices. -/
structure Tensor where
  shape : List ℕ
  data : List ℕ → ℝ

/-- Parameters of a 2-d (transposed) convolution: weight and bias. -/
structure ConvP where
  w : ℕ → ℕ → ℕ → ℕ → ℝ
  b : ℕ → ℝ

/-- Parameters of a batch-normalisation layer: scale and shift. -/
structure BNP where
  gamma : ℕ → ℝ
  beta : ℕ → ℝ

/-- Parameters of a linear layer: weight and bias. -/
structure LinP where
  w : ℕ → ℕ → ℝ
  b : ℕ → ℝ

/-- Row-major flat index of a multi-index in a given shape. -/
def flattenIdx : List ℕ → List ℕ → ℕ
  | _ :: dims, i :: is => i * dims.prod + flattenIdx dims is
  | _, _ => 0

/-- Multi-index in a given shape corresponding to a row-major flat index. -/
def unflattenIdx : List ℕ → ℕ → List ℕ
  | [], _ => []
  | _ :: dims, k => (k / dims.prod) :: unflattenIdx dims (k % dims.prod)

/-- Output spatial size of a 2-d convolution along one axis
(`floor((n + 2p - k)/s) + 1`). -/
def convOutDim (k s p n : ℕ) : ℕ := (n + 2 * p - k) / s + 1

/-- `nn.Conv2d` on a 4-d `[N, C, H, W]` input: cross-correlation with zero
padding.  Fails when the input is not 4-d, the channel count does not match,
or the padded input is smaller than the kernel (torch raises in both cases). -/
def conv2d (P : ConvP) (cin cout k s pad : ℕ) (t : Tensor) : Option Tensor :=
  match t.shape with
  | [n, c, h, w] =>
    if c = cin ∧ k ≤ h + 2 * pad ∧ k ≤ w + 2 * pad then
      some ⟨[n, cout, convOutDim k s pad h, convOutDim k s pad w],
        fun idx =>
          match idx with
          | [b, co, i, j] =>
            P.b co + ∑ ci ∈ Finset.range cin, ∑ ki ∈ Finset.range k,
              ∑ kj ∈ Finset.range k,
                P.w co ci ki kj *
                  (if pad ≤ i * s + ki ∧ i * s + ki < h + pad ∧
                      pad ≤ j * s + kj ∧ j * s + kj < w + pad then
                    t.data [b, ci, i * s + ki - pad, j * s + kj - pad]
                  else 0)
          | _ => 0⟩
    else none
  | _ => none

/-- `nn.BatchNorm2d` in training mode: normalise each channel by the biased
batch statistics (eps `1e-5`), then scale and shift.  Training mode also
runs `_verify_batch_size`, raising `ValueError` when each channel holds
exactly one value (`N * H * W == 1`). -/
def batchNorm2d (P : BNP) (nf : ℕ) (t : Tensor) : Option Tensor :=
  match t.shape with
  | [n, c, h, w] =>
    if c = nf ∧ n * h * w ≠ 1 then
      some ⟨[n, c, h, w],
        fun idx =>
          match idx with
          | [b, ch, i, j] =>
            (fun mean var =>
              P.gamma ch * ((t.data [b, ch, i, j] - mean) /
                Real.sqrt (var + 1e-5)) + P.beta ch)
              ((∑ b2 ∈ Finset.range n, ∑ i2 ∈ Finset.range h,
                  ∑ j2 ∈ Finset.range w, t.data [b2, ch, i2, j2]) /
                ((n * h * w : ℕ) : ℝ))
              ((∑ b2 ∈ Finset.range n, ∑ i2 ∈ Finset.range h,
                  ∑ j2 ∈ Finset.range w,
                    (t.data [b2, ch, i2, j2] -
                      (∑ b3 ∈ Finset.range n, ∑ i3 ∈ Finset.range h,
                        ∑ j3 ∈ Finset.range w, t.data [b3, ch, i3, j3]) /
                        ((n * h * w : ℕ) : ℝ)) ^ 2) /
                ((n * h * w : ℕ) : ℝ))
          | _ => 0⟩
    else none
  | _ => none

/-- `nn.LeakyReLU()` with the default negative slope `0.01`. -/
def leakyReLU (t : Tensor) : Tensor :=
  ⟨t.shape, fun idx => if t.data idx < 0 then 0.01 * t.data idx else t.data idx⟩

/-- `nn.Linear` applied to a 2-d `[N, F]` input; fails unless the feature
dimension matches `inF`. -/
def linear (P : LinP) (inF outF : ℕ) (t : Tensor) : Option Tensor :=
  match t.shape with
  | [n, f] =>
    if f = inF then
      some ⟨[n, outF],
        fun idx =>
          match idx with
          | [b, o] => P.b o + ∑ i ∈ Finset.range inF, P.w o i * t.data [b, i]
          | _ => 0⟩
    else none
  | _ => none

/-- `torch.flatten(x, start_dim=1)`: collapse all dimensions after the first. -/
def flatten2 (t : Tensor) : Option Tensor :=
  match t.shape with
  | n :: rest =>
    if rest = [] then none
    else
      some ⟨[n, rest.prod],
        fun idx =>
          match idx with
          | [b, f] => t.data (b :: unflattenIdx rest f)
          | _ => 0⟩
  | _ => none

/-- `x.view(-1, *cs)`: reshape, inferring the leading dimension. -/
def view1 (cs : List ℕ) (t : Tensor) : Option Tensor :=
  if 0 < cs.prod ∧ cs.prod ∣ t.shape.prod then
    some ⟨(t.shape.prod / cs.prod) :: cs,
      fun idx =>
        match idx with
        | b :: rest => t.data (unflattenIdx t.shape (b * cs.prod + flattenIdx cs rest))
        | _ => 0⟩
  else none

/-- `nn.ConvTranspose2d` on a 4-d `[N, C, H, W]` input. -/
def convTranspose2d (P : ConvP) (cin cout k s pad outPad : ℕ) (t : Tensor) :
    Option Tensor :=
  match t.shape with
  | [n, c, h, w] =>
    if c = cin ∧ 1 ≤ h ∧ 1 ≤ w ∧
        2 * pad + 1 ≤ (h - 1) * s + k + outPad ∧
        2 * pad + 1 ≤ (w - 1) * s + k + outPad then
      some ⟨[n, cout, (h - 1) * s + k + outPad - 2 * pad,
             (w - 1) * s + k + outPad - 2 * pad],
        fun idx =>
          match idx with
          | [b, co, i, j] =>
            P.b co + ∑ ci ∈ Finset.range cin, ∑ a ∈ Finset.range h,
              ∑ a2 ∈ Finset.range w, ∑ ki ∈ Finset.range k,
                ∑ kj ∈ Finset.range k,
                  (if a * s + ki = i + pad ∧ a2 * s + kj = j + pad then
                    P.w ci co ki kj * t.data [b, ci, a, a2]
                  else 0)
          | _ => 0⟩
    else none
  | _ => none

/-- The collection of randomly initialised parameters that `build` puts into
the layers it constructs, supplied as an explicit input. -/
structure BuildParams where
  encConv : ℕ → ConvP
  encBN : ℕ → BNP
  fcMu : LinP
  fcVar : LinP
  decInput : LinP
  decConv : ℕ → ConvP
  decBN : ℕ → BNP
  finalConv : ConvP
  finalBN : BNP
  outConv : ConvP

/-- One encoder block: `Conv2d(cin, cout, 3, stride=2, padding=1)`,
`BatchNorm2d(cout)`, `LeakyReLU()`. -/
def encBlock (P : ConvP) (B : BNP) (cin cout : ℕ) (t : Tensor) : Option Tensor :=
  (conv2d P cin cout 3 2 1 t).bind fun r =>
    (batchNorm2d B cout r).map leakyReLU

/-- The encoder `nn.Sequential`: one `encBlock` per hidden dimension, the
input channel count threading through. -/
def runEncoder (ps : BuildParams) : List ℕ → ℕ → ℕ → Tensor → Option Tensor
  | [], _, _, t => some t
  | hdim :: rest, cin, i, t =>
    (encBlock (ps.encConv i) (ps.encBN i) cin hdim t).bind
      (runEncoder ps rest hdim (i + 1))

/-- One decoder block: `ConvTranspose2d(c1, c2, 3, stride=2, padding=1,
output_padding=1)`, `BatchNorm2d(c2)`, `LeakyReLU()`. -/
def decBlock (P : ConvP) (B : BNP) (c1 c2 : ℕ) (t : Tensor) : Option Tensor :=
  (convTranspose2d P c1 c2 3 2 1 1 t).bind fun r =>
    (batchNorm2d B c2 r).map leakyReLU

/-- The decoder `nn.Sequential`: one `decBlock` for each adjacent pair of the
reversed hidden dimensions (the source loop over `range(len(hidden_dims_r) - 1)`). -/
def runDecoder (ps : BuildParams) : List ℕ → ℕ → Tensor → Option Tensor
  | c1 :: c2 :: rest, i, t =>
    (decBlock (ps.decConv i) (ps.decBN i) c1 c2 t).bind
      (runDecoder ps (c2 :: rest) (i + 1))
  | _, _, t => some t

/-- `self.final_layer`: a transposed convolution keeping the channel count,
followed by batch norm and `LeakyReLU`. -/
def finalLayer (ps : BuildParams) (c : ℕ) (t : Tensor) : Option Tensor :=
  (convTranspose2d ps.finalConv c c 3 2 1 1 t).bind fun r =>
    (batchNorm2d ps.finalBN c r).map leakyReLU

/-- Python-level exceptions that the model's methods can raise. -/
inductive PyError where
  | attributeError
  | runtimeError
deriving DecidableEq

/-- The attributes that `build` sets on the model. -/
structure BuiltLayers where
  ps : BuildParams
  encoder_result_shape : List ℕ
  outKernel : ℕ

/-- The `VanillaVAE` model object. -/
structure VanillaVAE where
  latent_dim : ℕ
  hidden_dims : List ℕ
  in_channels : ℕ
  built : Bool
  layers : Option BuiltLayers

namespace VanillaVAE

/-- `VanillaVAE.__init__`: record the hyperparameters (defaulting
`hidden_dims` to `[32, 64, 128, 256, 512]` when `None` is given), create no
layers, and leave `built = False`. -/
def init (in_channels latent_dim : ℕ) (hidden_dims : Option (List ℕ)) :
    VanillaVAE :=
  { latent_dim := latent_dim
    hidden_dims := hidden_dims.getD [32, 64, 128, 256, 512]
    in_channels := in_channels
    built := false
    layers := none }

/-- The part of `decode` shared with the dummy run inside `build`:
`decoder_input`, `view(-1, *encoder_result_shape)`, the decoder stack, and
`final_layer`. -/
def decoderCore (ps : BuildParams) (hs : List ℕ) (latent : ℕ) (ers : List ℕ)
    (t : Tensor) : Option Tensor :=
  (linear ps.decInput latent ers.prod t).bind fun r1 =>
    (view1 ers r1).bind fun r2 =>
      (runDecoder ps hs.reverse 0 r2).bind fun r3 =>
        hs.reverse.getLast?.bind fun hLast =>
          finalLayer ps hLast r3

/-- The body of `VanillaVAE.build`, with torch `RuntimeError`s (and the
`IndexError` on empty `hidden_dims`) collapsed into `none`. -/
def buildCore (m : VanillaVAE) (dummy : Tensor) (ps : BuildParams) :
    Option VanillaVAE :=
  (runEncoder ps m.hidden_dims m.in_channels 0 dummy).bind fun encRes =>
    (flatten2 encRes).bind fun flat =>
      (linear ps.fcMu encRes.shape.tail.prod m.latent_dim flat).bind fun mu =>
        (decoderCore ps m.hidden_dims m.latent_dim encRes.shape.tail mu).bind
          fun fin =>
            dummy.shape.getLast?.bind fun required =>
              fin.shape.getLast?.bind fun current =>
                if 1 ≤ -(((required : ℤ) - 1) * 1 + 1 - 2 * 1 -
                    (current : ℤ)) / 1 + 1 then
                  some { m with
                          built := true,
                          layers := some ⟨ps, encRes.shape.tail,
                            (-(((required : ℤ) - 1) * 1 + 1 - 2 * 1 -
                              (current : ℤ)) / 1 + 1).toNat⟩ }
                else none

/-- `VanillaVAE.build`: size every layer from the dummy batch's shape and set
`built = True`.  The `device` argument only moves the module and does not
affect values. -/
def build (m : VanillaVAE) (dummy : Tensor) (ps : BuildParams)
    (device : ℕ) : Except PyError VanillaVAE :=
  match buildCore m dummy ps with
  | some m2 => .ok m2
  | none => .error .runtimeError

/-- `VanillaVAE.encode`: guard on `built`, run the encoder, flatten from
dimension 1, and apply `fc_mu` and `fc_var`, returning `[mu, log_var]`. -/
def encode (m : VanillaVAE) (input : Tensor) : Except PyError (List Tensor) :=
  if m.built = false then .error .attributeError
  else
    match m.layers with
    | none => .error .attributeError
    | some L =>
      match (runEncoder L.ps m.hidden_dims m.in_channels 0 input).bind fun r =>
          (flatten2 r).bind fun f =>
            (linear L.ps.fcMu L.encoder_result_shape.prod m.latent_dim f).bind
              fun mu =>
                (linear L.ps.fcVar L.encoder_result_shape.prod m.latent_dim
                    f).bind fun log_var =>
                  some [mu, log_var] with
      | some r => .ok r
      | none => .error .runtimeError

/-- `VanillaVAE.decode`: guard on `built`, then `decoder_input`, `view`,
decoder stack, `final_layer`, and the output convolution whose kernel size
was chosen by `build`. -/
def decode (m : VanillaVAE) (z : Tensor) : Except PyError Tensor :=
  if m.built = false then .error .attributeError
  else
    match m.layers with
    | none => .error .attributeError
    | some L =>
      match (decoderCore L.ps m.hidden_dims m.latent_dim
          L.encoder_result_shape z).bind fun r =>
            m.hidden_dims.reverse.getLast?.bind fun hLast =>
              conv2d L.ps.outConv hLast m.in_channels L.outKernel 1 1 r with
      | some r => .ok r
      | none => .error .runtimeError

/-- `VanillaVAE.reparameterize` with the draw of `torch.randn_like` supplied
explicitly: `std = exp(0.5 * logvar)`, result `eps * std + mu`. -/
def reparameterize (mu logvar eps : Tensor) : Tensor :=
  ⟨mu.shape, fun idx =>
    eps.data idx * Real.exp ((0.5 : ℝ) * logvar.data idx) + mu.data idx⟩

/-- `VanillaVAE.forward`: guard on `built`, then
`[decode(reparameterize(mu, log_var)), input, mu, log_var]` with
`mu, log_var = encode(input)`. -/
def forward (m : VanillaVAE) (input eps : Tensor) :
    Except PyError (List Tensor) :=
  if m.built = false then .error .attributeError
  else
    match encode m input with
    | .error e => .error e
    | .ok [mu, log_var] =>
      match decode m (reparameterize mu log_var eps) with
      | .error e => .error e
      | .ok d => .ok [d, input, mu, log_var]
    | .ok _ => .error .runtimeError

/-- `F.mse_loss` with the default mean reduction: sum over all multi-indices
of the first argument's shape, divided by the element count. -/
def sumOver : List ℕ → (List ℕ → ℝ) → ℝ
  | [], f => f []
  | n :: rest, f => ∑ i ∈ Finset.range n, sumOver rest fun idx => f (i :: idx)

/-- The value of `F.mse_loss(recons, input)`. -/
def mseVal (recons input : Tensor) : ℝ :=
  sumOver recons.shape (fun idx => (recons.data idx - input.data idx) ^ 2) /
    (recons.shape.prod : ℝ)

/-- The value of
`torch.mean(-0.5 * torch.sum(1 + log_var - mu ** 2 - log_var.exp(), dim=1), dim=0)`
on 2-d `[B, D]` inputs. -/
def kldVal (mu log_var : Tensor) : ℝ :=
  match mu.shape with
  | [b, d] =>
    (∑ i ∈ Finset.range b,
        -(0.5 : ℝ) * ∑ j ∈ Finset.range d,
          (1 + log_var.data [i, j] - mu.data [i, j] ^ 2 -
            Real.exp (log_var.data [i, j]))) / (b : ℝ)
  | _ => 0

/-- A scalar result tensor carrying its autograd `requires_grad` flag. -/
structure Scalar where
  val : ℝ
  requiresGrad : Bool

/-- `Tensor.detach()`: same value, no gradient tracking. -/
def Scalar.detach (s : Scalar) : Scalar := ⟨s.val, false⟩

/-- Unary minus on a scalar tensor preserves gradient tracking. -/
def Scalar.neg (s : Scalar) : Scalar := ⟨-s.val, s.requiresGrad⟩

/-- The dict returned by `loss_function`. -/
structure LossDict where
  loss : Scalar
  Reconstruction_Loss : Scalar
  KLD : Scalar

/-- `VanillaVAE.loss_function`: guard on `built`, then
`loss = mse_loss(recons, input) + M_N * kld_loss`, with
`Reconstruction_Loss` and `KLD` detached (`KLD` being the negation of the
detached `kld_loss`).  `rg` is whether the incoming graph requires grad. -/
def loss_function (m : VanillaVAE) (recons input mu log_var : Tensor)
    (M_N : ℝ) (rg : Bool) : Except PyError LossDict :=
  if m.built = false then .error .attributeError
  else
    .ok
      { loss := ⟨mseVal recons input + M_N * kldVal mu log_var, rg⟩
        Reconstruction_Loss := Scalar.detach ⟨mseVal recons input, rg⟩
        KLD := Scalar.neg (Scalar.detach ⟨kldVal mu log_var, rg⟩) }

/-- `VanillaVAE.sample`: `decode` applied to a `[num_samples, latent_dim]`
batch of standard-normal draws (supplied explicitly); `current_device` only
moves the tensor. -/
def sample (m : VanillaVAE) (num_samples : ℕ) (current_device : ℕ)
    (eps : ℕ → ℕ → ℝ) : Except PyError Tensor :=
  decode m
    ⟨[num_samples, m.latent_dim],
      fun idx => match idx with | [a, b] => eps a b | _ => 0⟩

/-- `VanillaVAE.generate`: `self.forward(x)[0]`. -/
def generate (m : VanillaVAE) (x eps : Tensor) : Except PyError Tensor :=
  (forward m x eps).map fun l => l.headD ⟨[], fun _ => 0⟩

end VanillaVAE

open VanillaVAE

/-- Spatial size after one encoder convolution (kernel 3, stride 2, padding 1). -/
def encDim (n : ℕ) : ℕ := convOutDim 3 2 1 n

/-- Spatial size after `L` encoder convolutions. -/
def encIter : ℕ → ℕ → ℕ
  | 0, h => h
  | L + 1, h => encIter L (encDim h)

/-- torch's training-mode `_verify_batch_size` along the encoder stack: every
encoder `BatchNorm2d` input on a batch of size `n` keeps a per-channel value
count different from one. -/
def encoderBNSizesOK (n : ℕ) : List ℕ → ℕ → ℕ → Bool
  | [], _, _ => true
  | _ :: rest, h, w =>
    decide (n * encDim h * encDim w ≠ 1) &&
      encoderBNSizesOK n rest (encDim h) (encDim w)

lemma encDim_pos (n : ℕ) : 1 ≤ encDim n :=
  Nat.succ_le_succ (Nat.zero_le _)

lemma encIter_pos : ∀ (L h : ℕ), 1 ≤ h → 1 ≤ encIter L h
  | 0, _, hh => hh
  | L + 1, h, _ => encIter_pos L (encDim h) (encDim_pos h)

lemma two_mul_encDim_ge (h : ℕ) : h ≤ 2 * encDim h := by
  unfold encDim convOutDim
  omega

lemma two_mul_encDim_le (h : ℕ) (hh : 1 ≤ h) : 2 * encDim h ≤ h + 1 := by
  unfold encDim convOutDim
  omega

lemma le_pow_mul_encIter (L : ℕ) : ∀ h : ℕ, h ≤ 2 ^ L * encIter L h := by
  induction L with
  | zero => intro h; simp [encIter]
  | succ L ih =>
    intro h
    show h ≤ 2 ^ (L + 1) * encIter L (encDim h)
    calc h ≤ 2 * encDim h := two_mul_encDim_ge h
      _ ≤ 2 * (2 ^ L * encIter L (encDim h)) :=
          Nat.mul_le_mul_left 2 (ih (encDim h))
      _ = 2 ^ (L + 1) * encIter L (encDim h) := by ring

lemma pow_mul_encIter_le (L : ℕ) :
    ∀ h : ℕ, 1 ≤ h → 2 ^ L * encIter L h ≤ h + 2 ^ L - 1 := by
  induction L with
  | zero => intro h hh; simp [encIter]
  | succ L ih =>
    intro h hh
    show 2 ^ (L + 1) * encIter L (encDim h) ≤ h + 2 ^ (L + 1) - 1
    have h1 := two_mul_encDim_le h hh
    have h2 := ih (encDim h) (encDim_pos h)
    have h3 : (0 : ℕ) < 2 ^ L := Nat.pos_pow_of_pos L (by omega)
    have h4 : 1 ≤ encDim h := encDim_pos h
    have h5 : 2 ^ (L + 1) * encIter L (encDim h) =
        2 * (2 ^ L * encIter L (encDim h)) := by ring
    have h6 : 2 ^ (L + 1) = 2 * 2 ^ L := by ring
    omega

lemma conv2d_shape (P : ConvP) {cin cout k s pad n c h w : ℕ} {t : Tensor}
    (ht : t.shape = [n, c, h, w]) (hc : c = cin)
    (hkh : k ≤ h + 2 * pad) (hkw : k ≤ w + 2 * pad) :
    ∃ r, conv2d P cin cout k s pad t = some r ∧
      r.shape = [n, cout, convOutDim k s pad h, convOutDim k s pad w] := by
  unfold conv2d
  rw [ht]
  dsimp only
  rw [if_pos ⟨hc, hkh, hkw⟩]
  exact ⟨_, rfl, rfl⟩

lemma batchNorm2d_shape (P : BNP) {nf n c h w : ℕ} {t : Tensor}
    (ht : t.shape = [n, c, h, w]) (hc : c = nf) (hsz : n * h * w ≠ 1) :
    ∃ r, batchNorm2d P nf t = some r ∧ r.shape = [n, c, h, w] := by
  unfold batchNorm2d
  rw [ht]
  dsimp only
  rw [if_pos ⟨hc, hsz⟩]
  exact ⟨_, rfl, rfl⟩

lemma batchNorm2d_shape_of_success {P : BNP} {nf : ℕ} {t r : Tensor}
    (h : batchNorm2d P nf t = some r) : r.shape = t.shape := by
  unfold batchNorm2d at h
  split at h
  · next n c h2 w heq =>
    split at h
    · rw [← Option.some.inj h, heq]
    · exact absurd h (by simp)
  · exact absurd h (by simp)

lemma leakyReLU_shape (t : Tensor) : (leakyReLU t).shape = t.shape := rfl

lemma encBlock_shape (P : ConvP) (B : BNP) {cin cout n h w : ℕ} {t : Tensor}
    (ht : t.shape = [n, cin, h, w]) (hh : 1 ≤ h) (hw : 1 ≤ w)
    (hbn : n * encDim h * encDim w ≠ 1) :
    ∃ r, encBlock P B cin cout t = some r ∧
      r.shape = [n, cout, encDim h, encDim w] := by
  obtain ⟨r1, e1, s1⟩ :=
    @conv2d_shape P cin cout 3 2 1 n cin h w t ht rfl (by omega) (by omega)
  obtain ⟨r2, e2, s2⟩ :=
    @batchNorm2d_shape B cout n cout (convOutDim 3 2 1 h) (convOutDim 3 2 1 w)
      r1 s1 rfl hbn
  refine ⟨leakyReLU r2, ?_, ?_⟩
  · simp [encBlock, e1, e2]
  · rw [leakyReLU_shape, s2]; rfl

lemma runEncoder_shape (ps : BuildParams) :
    ∀ (hs : List ℕ) (i : ℕ) {t : Tensor} {n c h w : ℕ},
      t.shape = [n, c, h, w] → 1 ≤ h → 1 ≤ w →
      encoderBNSizesOK n hs h w = true →
      ∃ r, runEncoder ps hs c i t = some r ∧
        r.shape = [n, hs.getLastD c, encIter hs.length h, encIter hs.length w] := by
  intro hs
  induction hs with
  | nil =>
    intro i t n c h w ht _ _ _
    exact ⟨t, rfl, by simpa [encIter] using ht⟩
  | cons hd tl ih =>
    intro i t n c h w ht hh hw hbn
    simp only [encoderBNSizesOK, Bool.and_eq_true, decide_eq_true_eq] at hbn
    obtain ⟨hbn1, hbn2⟩ := hbn
    obtain ⟨r1, e1, s1⟩ :=
      @encBlock_shape (ps.encConv i) (ps.encBN i) c hd n h w t ht hh hw hbn1
    obtain ⟨r2, e2, s2⟩ :=
      ih (i + 1) s1 (encDim_pos h) (encDim_pos w) hbn2
    refine ⟨r2, ?_, ?_⟩
    · simp [runEncoder, e1, e2]
    · rw [s2, List.getLastD_cons]
      rfl

lemma convTranspose2d_shape (P : ConvP) {cin cout k s pad op n c h w : ℕ}
    {t : Tensor} (ht : t.shape = [n, c, h, w]) (hc : c = cin)
    (hh : 1 ≤ h) (hw : 1 ≤ w)
    (hbh : 2 * pad + 1 ≤ (h - 1) * s + k + op)
    (hbw : 2 * pad + 1 ≤ (w - 1) * s + k + op) :
    ∃ r, convTranspose2d P cin cout k s pad op t = some r ∧
      r.shape = [n, cout, (h - 1) * s + k + op - 2 * pad,
        (w - 1) * s + k + op - 2 * pad] := by
  unfold convTranspose2d
  rw [ht]
  dsimp only
  rw [if_pos ⟨hc, hh, hw, hbh, hbw⟩]
  exact ⟨_, rfl, rfl⟩

lemma decBlock_shape (P : ConvP) (B : BNP) {c1 c2 n h w : ℕ} {t : Tensor}
    (ht : t.shape = [n, c1, h, w]) (hh : 1 ≤ h) (hw : 1 ≤ w) :
    ∃ r, decBlock P B c1 c2 t = some r ∧ r.shape = [n, c2, 2 * h, 2 * w] := by
  obtain ⟨r1, e1, s1⟩ :=
    @convTranspose2d_shape P c1 c2 3 2 1 1 n c1 h w t ht rfl hh hw
      (by omega) (by omega)
  have hsh : r1.shape = [n, c2, 2 * h, 2 * w] := by
    rw [s1]
    have e1h : (h - 1) * 2 + 3 + 1 - 2 * 1 = 2 * h := by omega
    have e1w : (w - 1) * 2 + 3 + 1 - 2 * 1 = 2 * w := by omega
    rw [e1h, e1w]
  obtain ⟨r2, e2, s2⟩ := @batchNorm2d_shape B c2 n c2 (2 * h) (2 * w) r1 hsh rfl
    (by
      intro hone
      have := Nat.eq_one_of_mul_eq_one_left hone
      omega)
  refine ⟨leakyReLU r2, ?_, ?_⟩
  · simp [decBlock, e1, e2]
  · rw [leakyReLU_shape, s2]

lemma runDecoder_shape (ps : BuildParams) :
    ∀ (rest : List ℕ) (c0 i : ℕ) {t : Tensor} {n h w : ℕ},
      t.shape = [n, c0, h, w] → 1 ≤ h → 1 ≤ w →
      ∃ r, runDecoder ps (c0 :: rest) i t = some r ∧
        r.shape = [n, rest.getLastD c0, 2 ^ rest.length * h,
          2 ^ rest.length * w] := by
  intro rest
  induction rest with
  | nil =>
    intro c0 i t n h w ht _ _
    exact ⟨t, rfl, by simpa using ht⟩
  | cons c2 rest2 ih =>
    intro c0 i t n h w ht hh hw
    obtain ⟨r1, e1, s1⟩ :=
      @decBlock_shape (ps.decConv i) (ps.decBN i) c0 c2 n h w t ht hh hw
    obtain ⟨r2, e2, s2⟩ := ih c2 (i + 1) s1 (by omega) (by omega)
    refine ⟨r2, ?_, ?_⟩
    · simp [runDecoder, e1, e2]
    · rw [s2, List.getLastD_cons]
      have eh : 2 ^ rest2.length * (2 * h) = 2 ^ (c2 :: rest2).length * h := by
        simp [pow_succ]; ring
      have ew : 2 ^ rest2.length * (2 * w) = 2 ^ (c2 :: rest2).length * w := by
        simp [pow_succ]; ring
      rw [eh, ew]

lemma finalLayer_shape (ps : BuildParams) {c n h w : ℕ} {t : Tensor}
    (ht : t.shape = [n, c, h, w]) (hh : 1 ≤ h) (hw : 1 ≤ w) :
    ∃ r, finalLayer ps c t = some r ∧ r.shape = [n, c, 2 * h, 2 * w] := by
  obtain ⟨r1, e1, s1⟩ :=
    @convTranspose2d_shape ps.finalConv c c 3 2 1 1 n c h w t ht rfl hh hw
      (by omega) (by omega)
  have hsh : r1.shape = [n, c, 2 * h, 2 * w] := by
    rw [s1]
    have e1h : (h - 1) * 2 + 3 + 1 - 2 * 1 = 2 * h := by omega
    have e1w : (w - 1) * 2 + 3 + 1 - 2 * 1 = 2 * w := by omega
    rw [e1h, e1w]
  obtain ⟨r2, e2, s2⟩ := @batchNorm2d_shape ps.finalBN c n c (2 * h) (2 * w) r1
    hsh rfl
    (by
      intro hone
      have := Nat.eq_one_of_mul_eq_one_left hone
      omega)
  refine ⟨leakyReLU r2, ?_, ?_⟩
  · simp [finalLayer, e1, e2]
  · rw [leakyReLU_shape, s2]

lemma linear_shape (P : LinP) {inF outF n : ℕ} {t : Tensor}
    (ht : t.shape = [n, inF]) :
    ∃ r, linear P inF outF t = some r ∧ r.shape = [n, outF] := by
  unfold linear
  rw [ht]
  dsimp only
  rw [if_pos rfl]
  exact ⟨_, rfl, rfl⟩

lemma flatten2_shape {t : Tensor} {n : ℕ} {rest : List ℕ}
    (ht : t.shape = n :: rest) (hne : rest ≠ []) :
    ∃ r, flatten2 t = some r ∧ r.shape = [n, rest.prod] := by
  unfold flatten2
  rw [ht]
  dsimp only
  rw [if_neg hne]
  exact ⟨_, rfl, rfl⟩

lemma view1_shape {cs : List ℕ} {t : Tensor} {n : ℕ}
    (ht : t.shape = [n, cs.prod]) (hpos : 0 < cs.prod) :
    ∃ r, view1 cs t = some r ∧ r.shape = n :: cs := by
  have hnum : t.shape.prod = n * cs.prod := by
    rw [ht]; simp [List.prod_cons]
  unfold view1
  rw [if_pos ⟨hpos, by rw [hnum]; exact ⟨n, by ring⟩⟩]
  refine ⟨_, rfl, ?_⟩
  simp only [hnum]
  rw [Nat.mul_div_cancel _ hpos]

lemma view1_inv {cs : List ℕ} {t r : Tensor} (h : view1 cs t = some r) :
    0 < cs.prod := by
  unfold view1 at h
  split at h
  · next hc => exact hc.1
  · exact absurd h (by simp)

lemma conv2d_inv {P : ConvP} {cin cout k s pad : ℕ} {t r : Tensor}
    (h : conv2d P cin cout k s pad t = some r) :
    ∃ n c h2 w, t.shape = [n, c, h2, w] ∧ c = cin ∧
      k ≤ h2 + 2 * pad ∧ k ≤ w + 2 * pad ∧
      r.shape = [n, cout, convOutDim k s pad h2, convOutDim k s pad w] := by
  unfold conv2d at h
  split at h
  · next n c h2 w heq =>
    split at h
    · next hcond =>
      exact ⟨n, c, h2, w, heq, hcond.1, hcond.2.1, hcond.2.2,
        by rw [← Option.some.inj h]⟩
    · exact absurd h (by simp)
  · exact absurd h (by simp)

lemma encBlock_shape_of_success {P : ConvP} {B : BNP} {cin cout : ℕ}
    {t r : Tensor} {n c h w : ℕ} (hb : encBlock P B cin cout t = some r)
    (ht : t.shape = [n, c, h, w]) :
    c = cin ∧ 1 ≤ h ∧ 1 ≤ w ∧ r.shape = [n, cout, encDim h, encDim w] := by
  simp only [encBlock, Option.bind_eq_some, Option.map_eq_some'] at hb
  obtain ⟨r1, hConv, r2, hBN, hr⟩ := hb
  obtain ⟨n2, c2, h2, w2, ht2, hcc, hbh, hbw, hcs⟩ := conv2d_inv hConv
  rw [ht] at ht2
  injection ht2 with e1 ht2
  injection ht2 with e2 ht2
  injection ht2 with e3 ht2
  injection ht2 with e4 ht2
  subst e1
  subst e2
  subst e3
  subst e4
  refine ⟨hcc, by omega, by omega, ?_⟩
  rw [← hr, leakyReLU_shape, batchNorm2d_shape_of_success hBN, hcs]
  rfl

lemma runEncoder_shape_of_success (ps : BuildParams) :
    ∀ (hs : List ℕ) (i : ℕ) {t r : Tensor} {n c h w : ℕ},
      runEncoder ps hs c i t = some r → t.shape = [n, c, h, w] →
      r.shape = [n, hs.getLastD c, encIter hs.length h, encIter hs.length w] := by
  intro hs
  induction hs with
  | nil =>
    intro i t r n c h w hrun ht
    simp only [runEncoder] at hrun
    rw [← Option.some.inj hrun, ht]
    rfl
  | cons hd tl ih =>
    intro i t r n c h w hrun ht
    simp only [runEncoder, Option.bind_eq_some] at hrun
    obtain ⟨r1, hblk, hrest⟩ := hrun
    obtain ⟨hcc, hh, hw, hr1⟩ := encBlock_shape_of_success hblk ht
    have hdone := ih (i + 1) hrest hr1
    rw [hdone, List.getLastD_cons]
    rfl

lemma decoderCore_shape (ps : BuildParams) {hd latent eH eW b : ℕ}
    {tl : List ℕ} {z : Tensor} (hz : z.shape = [b, latent])
    (hcL : 1 ≤ tl.getLastD hd) (heH : 1 ≤ eH) (heW : 1 ≤ eW) :
    ∃ r, decoderCore ps (hd :: tl) latent [tl.getLastD hd, eH, eW] z = some r ∧
      r.shape = [b, hd, 2 ^ (tl.length + 1) * eH, 2 ^ (tl.length + 1) * eW] := by
  obtain ⟨r1, e1, s1⟩ :=
    @linear_shape ps.decInput latent ([tl.getLastD hd, eH, eW].prod) b z hz
  have hpos : 0 < ([tl.getLastD hd, eH, eW] : List ℕ).prod := by
    simp only [List.prod_cons, List.prod_nil, mul_one]
    exact Nat.mul_pos hcL (Nat.mul_pos heH heW)
  obtain ⟨r2, e2, s2⟩ := @view1_shape [tl.getLastD hd, eH, eW] r1 b s1 hpos
  have hne : (hd :: tl) ≠ [] := List.cons_ne_nil hd tl
  have hrev : (hd :: tl).reverse =
      tl.getLastD hd :: (hd :: tl).dropLast.reverse := by
    conv_lhs => rw [← List.dropLast_append_getLast hne]
    rw [List.reverse_append, List.getLast_eq_getLastD]
    simp
  obtain ⟨r3, e3, s3⟩ :=
    runDecoder_shape ps ((hd :: tl).dropLast.reverse) (tl.getLastD hd) 0 s2
      heH heW
  have hlen : ((hd :: tl).dropLast.reverse).length = tl.length := by
    simp
  have hgl : ((hd :: tl).dropLast.reverse).getLastD (tl.getLastD hd) = hd := by
    have h1 : ((hd :: tl).reverse).getLastD 0 =
        ((hd :: tl).dropLast.reverse).getLastD (tl.getLastD hd) := by
      rw [hrev, List.getLastD_cons]
    have h2 : ((hd :: tl).reverse).getLastD 0 = hd := by
      rw [List.getLastD_eq_getLast?, List.getLast?_reverse]
      rfl
    rw [← h1, h2]
  have s3' : r3.shape = [b, hd, 2 ^ tl.length * eH, 2 ^ tl.length * eW] := by
    rw [s3, hgl, hlen]
  obtain ⟨r4, e4, s4⟩ := finalLayer_shape ps s3'
    (Nat.one_le_iff_ne_zero.mpr (Nat.mul_ne_zero (by positivity) (by omega)))
    (Nat.one_le_iff_ne_zero.mpr (Nat.mul_ne_zero (by positivity) (by omega)))
  refine ⟨r4, ?_, ?_⟩
  · have hgl2 : ((hd :: tl).reverse).getLast? = some hd := by
      rw [List.getLast?_reverse]
      rfl
    have e3' : runDecoder ps (hd :: tl).reverse 0 r2 = some r3 := by
      rw [hrev]
      exact e3
    unfold decoderCore
    rw [e1, Option.some_bind, e2, Option.some_bind, e3', Option.some_bind,
      hgl2, Option.some_bind, e4]
  · rw [s4]
    have eh : 2 * (2 ^ tl.length * eH) = 2 ^ (tl.length + 1) * eH := by ring
    have ew : 2 * (2 ^ tl.length * eW) = 2 ^ (tl.length + 1) * eW := by ring
    rw [eh, ew]

lemma option_some_unique {α : Type} {x : Option α} {a b : α}
    (h1 : x = some a) (h2 : x = some b) : a = b := by
  rw [h1] at h2
  exact Option.some.inj h2

lemma build_inv {m : VanillaVAE} {d : Tensor} {ps : BuildParams} {dev : ℕ}
    {m2 : VanillaVAE} (hb : build m d ps dev = .ok m2) :
    ∃ hd tl n0 h w,
      m.hidden_dims = hd :: tl ∧
      d.shape = [n0, m.in_channels, h, w] ∧ 1 ≤ h ∧ 1 ≤ w ∧
      1 ≤ tl.getLastD hd ∧
      m2 = { m with
              built := true,
              layers := some ⟨ps,
                [tl.getLastD hd, encIter (tl.length + 1) h,
                  encIter (tl.length + 1) w],
                2 ^ (tl.length + 1) * encIter (tl.length + 1) w + 3 - w⟩ } := by
  unfold build at hb
  split at hb
  case h_2 => exact Except.noConfusion hb
  case h_1 v heq =>
  have hv : v = m2 := Except.ok.inj hb
  subst hv
  simp only [buildCore, Option.bind_eq_some] at heq
  obtain ⟨encRes, hEnc, heq⟩ := heq
  obtain ⟨flat, hFlat, heq⟩ := heq
  obtain ⟨mu, hMu, heq⟩ := heq
  obtain ⟨fin, hFin, heq⟩ := heq
  obtain ⟨required, hReq, heq⟩ := heq
  obtain ⟨current, hCur, heq⟩ := heq
  cases hhd : m.hidden_dims with
  | nil =>
    exfalso
    rw [hhd] at hFin
    simp [decoderCore, runDecoder, Option.bind_eq_some] at hFin
  | cons hd tl =>
  rw [hhd] at hEnc hFin
  have hEnc0 := hEnc
  simp only [runEncoder, Option.bind_eq_some] at hEnc
  obtain ⟨rb, hBlk, -⟩ := hEnc
  simp only [encBlock, Option.bind_eq_some, Option.map_eq_some'] at hBlk
  obtain ⟨rc, hConv, -⟩ := hBlk
  obtain ⟨n0, c, h, w, hdsh, hcc, hbh, hbw, -⟩ := conv2d_inv hConv
  subst hcc
  have hh : 1 ≤ h := by omega
  have hw : 1 ≤ w := by omega
  have hrs := runEncoder_shape_of_success ps (hd :: tl) 0 hEnc0 hdsh
  have hers : encRes.shape.tail =
      [tl.getLastD hd, encIter (tl.length + 1) h, encIter (tl.length + 1) w] := by
    rw [hrs, List.getLastD_cons]
    rfl
  have heH : 1 ≤ encIter (tl.length + 1) h := encIter_pos _ h hh
  have heW : 1 ≤ encIter (tl.length + 1) w := encIter_pos _ w hw
  -- positivity of the last hidden dimension, from the view inside decoderCore
  have hFin0 := hFin
  simp only [decoderCore, Option.bind_eq_some] at hFin0
  obtain ⟨r1x, -, r2x, hViewx, -⟩ := hFin0
  have hprod := view1_inv hViewx
  rw [hers] at hprod
  have hcL : 1 ≤ tl.getLastD hd := by
    rcases Nat.eq_zero_or_pos (tl.getLastD hd) with hcl | hcl
    · rw [hcl] at hprod
      simp at hprod
    · exact hcl
  -- shapes through fc_mu
  have hshape4 : encRes.shape =
      n0 :: [tl.getLastD hd, encIter (tl.length + 1) h,
        encIter (tl.length + 1) w] := by
    rw [hrs, List.getLastD_cons]
    rfl
  obtain ⟨f2, hf2, hf2s⟩ := flatten2_shape hshape4 (by simp)
  have hfe : flat = f2 := option_some_unique hFlat hf2
  subst hfe
  have hflats : flat.shape = [n0, encRes.shape.tail.prod] := by
    rw [hf2s, hers]
  obtain ⟨mu2, hmu2, hmu2s⟩ :=
    @linear_shape ps.fcMu encRes.shape.tail.prod m.latent_dim n0 flat hflats
  have hme : mu = mu2 := option_some_unique hMu hmu2
  subst hme
  -- the dummy run through the decoder
  obtain ⟨fr, hfr, hfrs⟩ :=
    @decoderCore_shape ps hd m.latent_dim (encIter (tl.length + 1) h)
      (encIter (tl.length + 1) w) n0 tl mu hmu2s hcL heH heW
  rw [hers] at hFin
  have hfe2 : fin = fr := option_some_unique hFin hfr
  subst hfe2
  -- required and current dimensions
  rw [hdsh] at hReq
  have hreqw : required = w := option_some_unique hReq rfl
  rw [hreqw] at heq
  rw [hfrs] at hCur
  have hcurw : current = 2 ^ (tl.length + 1) * encIter (tl.length + 1) w :=
    option_some_unique hCur rfl
  rw [hcurw] at heq
  -- the kernel size computation
  have hwle : (w : ℕ) ≤ 2 ^ (tl.length + 1) * encIter (tl.length + 1) w :=
    le_pow_mul_encIter (tl.length + 1) w
  split at heq
  · have hm2 := (Option.some.inj heq).symm
    refine ⟨hd, tl, n0, h, w, rfl, hdsh, hh, hw, hcL, ?_⟩
    rw [hm2, hers]
    have hker : (-((((w : ℕ) : ℤ) - 1) * 1 + 1 - 2 * 1 -
        ((2 ^ (tl.length + 1) * encIter (tl.length + 1) w : ℕ) : ℤ)) / 1 +
        1).toNat = 2 ^ (tl.length + 1) * encIter (tl.length + 1) w + 3 - w := by
      simp only [Int.ediv_one]
      omega
    rw [hker, hhd]
  · exact absurd heq (by simp)

lemma decode_shape_general {m : VanillaVAE} {d : Tensor} {ps : BuildParams}
    {dev : ℕ} {m2 : VanillaVAE} {n0 h w b : ℕ} {z : Tensor}
    (hb : build m d ps dev = .ok m2)
    (hd2 : d.shape = [n0, m.in_channels, h, w])
    (hz : z.shape = [b, m.latent_dim]) :
    ∃ r, decode m2 z = .ok r ∧
      r.shape = [b, m.in_channels,
        2 ^ m.hidden_dims.length * encIter m.hidden_dims.length h + 3 -
          (2 ^ m.hidden_dims.length * encIter m.hidden_dims.length w + 3 - w),
        w] := by
  obtain ⟨hd, tl, n0x, hx, wx, hhd, hdsh, hhx, hwx, hcL, hm2⟩ := build_inv hb
  rw [hd2] at hdsh
  have hn0 : n0 = n0x := by injection hdsh with h1 h2
  have hhw : h = hx ∧ w = wx := by
    injection hdsh with h1 h2
    injection h2 with h1 h2
    injection h2 with h1 h2
    injection h2 with h2 h3
    exact ⟨h1, h2⟩
  obtain ⟨hhe, hwe⟩ := hhw
  subst hhe
  subst hwe
  subst hm2
  rw [hhd, List.length_cons]
  have heH : 1 ≤ encIter (tl.length + 1) h := encIter_pos _ h hhx
  have heW : 1 ≤ encIter (tl.length + 1) w := encIter_pos _ w hwx
  have hwle : w ≤ 2 ^ (tl.length + 1) * encIter (tl.length + 1) w :=
    le_pow_mul_encIter (tl.length + 1) w
  have hwub := pow_mul_encIter_le (tl.length + 1) w hwx
  have hpw : (0 : ℕ) < 2 ^ (tl.length + 1) := Nat.pos_pow_of_pos _ (by omega)
  have hpow_le : 2 ^ (tl.length + 1) ≤
      2 ^ (tl.length + 1) * encIter (tl.length + 1) h :=
    Nat.le_mul_of_pos_right _ (by omega)
  obtain ⟨fr, hfr, hfrs⟩ :=
    @decoderCore_shape ps hd m.latent_dim (encIter (tl.length + 1) h)
      (encIter (tl.length + 1) w) b tl z hz hcL heH heW
  obtain ⟨rc, hrc, hrcs⟩ :=
    @conv2d_shape ps.outConv hd m.in_channels
      (2 ^ (tl.length + 1) * encIter (tl.length + 1) w + 3 - w) 1 1 b hd
      (2 ^ (tl.length + 1) * encIter (tl.length + 1) h)
      (2 ^ (tl.length + 1) * encIter (tl.length + 1) w) fr hfrs rfl
      (by omega) (by omega)
  refine ⟨rc, ?_, ?_⟩
  · have hgl2 : ((hd :: tl).reverse).getLast? = some hd := by
      rw [List.getLast?_reverse]
      rfl
    simp only [decode]
    rw [if_neg (by simp)]
    rw [hfr, Option.some_bind, hgl2, Option.some_bind, hrc]
  · rw [hrcs]
    have e1 : convOutDim
        (2 ^ (tl.length + 1) * encIter (tl.length + 1) w + 3 - w) 1 1
        (2 ^ (tl.length + 1) * encIter (tl.length + 1) h) =
        2 ^ (tl.length + 1) * encIter (tl.length + 1) h + 3 -
          (2 ^ (tl.length + 1) * encIter (tl.length + 1) w + 3 - w) := by
      unfold convOutDim
      omega
    have e2 : convOutDim
        (2 ^ (tl.length + 1) * encIter (tl.length + 1) w + 3 - w) 1 1
        (2 ^ (tl.length + 1) * encIter (tl.length + 1) w) = w := by
      unfold convOutDim
      omega
    rw [e1, e2]

/-- Zero-initialised parameters used for the concrete test instances. -/
def psZero : BuildParams :=
  { encConv := fun _ => ⟨fun _ _ _ _ => 0, fun _ => 0⟩
    encBN := fun _ => ⟨fun _ => 1, fun _ => 0⟩
    fcMu := ⟨fun _ _ => 0, fun _ => 0⟩
    fcVar := ⟨fun _ _ => 0, fun _ => 0⟩
    decInput := ⟨fun _ _ => 0, fun _ => 0⟩
    decConv := fun _ => ⟨fun _ _ _ _ => 0, fun _ => 0⟩
    decBN := fun _ => ⟨fun _ => 1, fun _ => 0⟩
    finalConv := ⟨fun _ _ _ _ => 0, fun _ => 0⟩
    finalBN := ⟨fun _ => 1, fun _ => 0⟩
    outConv := ⟨fun _ _ _ _ => 0, fun _ => 0⟩ }

/-- `VanillaVAE(in_channels=1, latent_dim=4)` with the default hidden dims. -/
def mex : VanillaVAE := VanillaVAE.init 1 4 none

/-- A dummy build batch of shape `[2, 1, 2, 1]` (taller than wide). -/
def dex1 : Tensor := ⟨[2, 1, 2, 1], fun _ => 0⟩

/-- A dummy build batch of shape `[2, 1, 1, 2]` (wider than tall). -/
def dex2 : Tensor := ⟨[2, 1, 1, 2], fun _ => 0⟩

/-- A dummy build batch of shape `[2, 1, 1, 1]` (square). -/
def dex3 : Tensor := ⟨[2, 1, 1, 1], fun _ => 0⟩

/-- The model built from `mex` on the `[2, 1, 2, 1]` batch. -/
def exM1 : VanillaVAE := ((build mex dex1 psZero 0).toOption).getD mex

/-- The model built from `mex` on the `[2, 1, 1, 2]` batch. -/
def exM2 : VanillaVAE := ((build mex dex2 psZero 0).toOption).getD mex

/-- The model built from `mex` on the `[2, 1, 1, 1]` batch. -/
def exM3 : VanillaVAE := ((build mex dex3 psZero 0).toOption).getD mex

/-- C1, amended: for a model built on a batch `[N, C, H, W]` whose height and
width have equal padding slack through the conv stack (in particular whenever
`H = W`), `decode` maps any `[B, latent_dim]` tensor to a `[B, in_channels,
H, W]` tensor.  Without the slack condition only the width is recovered. -/
theorem decode_shape_of_build_equal_slack {m : VanillaVAE} {d : Tensor}
    {ps : BuildParams} {dev : ℕ} {m2 : VanillaVAE} {n0 h w b : ℕ} {z : Tensor}
    (hb : build m d ps dev = .ok m2)
    (hd2 : d.shape = [n0, m.in_channels, h, w])
    (hslack : 2 ^ m.hidden_dims.length * encIter m.hidden_dims.length h - h =
      2 ^ m.hidden_dims.length * encIter m.hidden_dims.length w - w)
    (hz : z.shape = [b, m.latent_dim]) :
    ∃ r, decode m2 z = .ok r ∧ r.shape = [b, m.in_channels, h, w] := by
  obtain ⟨r, hr, hrs⟩ := decode_shape_general hb hd2 hz
  refine ⟨r, hr, ?_⟩
  rw [hrs]
  have h1 : h ≤ 2 ^ m.hidden_dims.length * encIter m.hidden_dims.length h :=
    le_pow_mul_encIter _ h
  have h2 : w ≤ 2 ^ m.hidden_dims.length * encIter m.hidden_dims.length w :=
    le_pow_mul_encIter _ w
  have h3 : 2 ^ m.hidden_dims.length * encIter m.hidden_dims.length h + 3 -
      (2 ^ m.hidden_dims.length * encIter m.hidden_dims.length w + 3 - w) =
      h := by
    omega
  rw [h3]

/-- Witness for the amended C1 at the square build batch `[2, 1, 1, 1]`. -/
theorem decode_shape_of_build_equal_slack_witness :
    ∃ r, decode exM3 ⟨[3, 4], fun _ => 0⟩ = .ok r ∧
      r.shape = [3, 1, 1, 1] :=
  @decode_shape_of_build_equal_slack mex dex3 psZero 0 exM3 2 1 1 3
    ⟨[3, 4], fun _ => 0⟩ rfl rfl (by decide) rfl

/-- C1 counterexample: building on the non-square batch `[2, 1, 2, 1]`
succeeds, but `decode` of a `[2, latent_dim]` tensor has shape
`[2, 1, 1, 1]`, not the claimed `[B, in_channels, H, W] = [2, 1, 2, 1]`:
the output kernel size is computed from the width only, so the decoded
height collapses to the width's padded size. -/
theorem decode_spatial_mismatch_on_nonsquare_build :
    build mex dex1 psZero 0 = .ok exM1 ∧
    (decode exM1 ⟨[2, 4], fun _ => 0⟩).map Tensor.shape = .ok [2, 1, 1, 1] ∧
    ([2, 1, 1, 1] : List ℕ) ≠ [2, 1, 2, 1] :=
  ⟨rfl, rfl, by decide⟩

/-- C7, amended: for a model built on `[N, C, H, W]` with equal padding
slack for height and width (in particular `H = W`), `sample(num_samples,
device)` decodes a `[num_samples, latent_dim]` batch of standard-normal
draws into exactly `num_samples` images of shape
`[num_samples, in_channels, H, W]`.  Without the slack condition the
batch size and width are still as claimed but the height is not `H`. -/
theorem sample_shape_of_build_equal_slack {m : VanillaVAE} {d : Tensor}
    {ps : BuildParams} {dev : ℕ} {m2 : VanillaVAE} {n0 h w : ℕ}
    (hb : build m d ps dev = .ok m2)
    (hd2 : d.shape = [n0, m.in_channels, h, w])
    (hslack : 2 ^ m.hidden_dims.length * encIter m.hidden_dims.length h - h =
      2 ^ m.hidden_dims.length * encIter m.hidden_dims.length w - w)
    (num_samples current_device : ℕ) (eps : ℕ → ℕ → ℝ) :
    ∃ r, sample m2 num_samples current_device eps = .ok r ∧
      r.shape = [num_samples, m.in_channels, h, w] := by
  have hlat : m2.latent_dim = m.latent_dim := by
    obtain ⟨hd0, tl, n0x, hx, wx, hhd, hdsh, hhx, hwx, hcL, hm2⟩ := build_inv hb
    rw [hm2]
  exact decode_shape_of_build_equal_slack hb hd2 hslack (by rw [hlat])

/-- Witness for the amended C7 at the square build batch `[2, 1, 1, 1]`. -/
theorem sample_shape_of_build_equal_slack_witness :
    ∃ r, sample exM3 5 0 (fun _ _ => 0) = .ok r ∧
      r.shape = [5, 1, 1, 1] :=
  @sample_shape_of_build_equal_slack mex dex3 psZero 0 exM3 2 1 1
    rfl rfl (by decide) 5 0 (fun _ _ => 0)

/-- C7 counterexample: building on the non-square batch `[2, 1, 1, 2]`
succeeds, but `sample(3, device)` returns a batch of shape `[3, 1, 2, 2]`,
not the claimed `[num_samples, in_channels, H, W] = [3, 1, 1, 2]`. -/
theorem sample_shape_mismatch_on_nonsquare_build :
    build mex dex2 psZero 0 = .ok exM2 ∧
    (sample exM2 3 0 fun _ _ => 0).map Tensor.shape = .ok [3, 1, 2, 2] ∧
    ([3, 1, 2, 2] : List ℕ) ≠ [3, 1, 1, 2] :=
  ⟨rfl, rfl, by decide⟩

/-- C5, amended: on a built model, `encode` of any input whose channel count
equals `in_channels` and whose spatial dimensions equal the build batch's
returns the two-element list `[mu, log_var]`, each entry of shape
`[N, latent_dim]`, obtained from `fc_mu` and `fc_var` on the flattened
encoder output — provided every encoder `BatchNorm2d` input keeps a
per-channel value count different from one (torch's training-mode
`_verify_batch_size` check); this holds in particular for every `N ≥ 2`.
For `N = 1` with some encoder block output at `1 x 1` spatial size the
program instead raises `ValueError`. -/
theorem encode_returns_mu_logvar_shapes {m : VanillaVAE} {d : Tensor}
    {ps : BuildParams} {dev : ℕ} {m2 : VanillaVAE} {n0 h w n : ℕ}
    {input : Tensor} (hb : build m d ps dev = .ok m2)
    (hd2 : d.shape = [n0, m.in_channels, h, w])
    (hi : input.shape = [n, m.in_channels, h, w])
    (hbn : encoderBNSizesOK n m.hidden_dims h w = true) :
    ∃ mu log_var, encode m2 input = .ok [mu, log_var] ∧
      mu.shape = [n, m.latent_dim] ∧ log_var.shape = [n, m.latent_dim] := by
  obtain ⟨hd0, tl, n0x, hx, wx, hhd, hdsh, hhx, hwx, hcL, hm2⟩ := build_inv hb
  rw [hd2] at hdsh
  have hhw : h = hx ∧ w = wx := by
    injection hdsh with h1 h2
    injection h2 with h1 h2
    injection h2 with h1 h2
    injection h2 with h2 h3
    exact ⟨h1, h2⟩
  obtain ⟨hhe, hwe⟩ := hhw
  subst hhe
  subst hwe
  subst hm2
  rw [hhd]
  rw [hhd] at hbn
  obtain ⟨r, hr, hrs⟩ := runEncoder_shape ps (hd0 :: tl) 0 hi hhx hwx hbn
  have hrs2 : r.shape = n :: [tl.getLastD hd0, encIter (tl.length + 1) h,
      encIter (tl.length + 1) w] := by
    rw [hrs, List.getLastD_cons]
    rfl
  obtain ⟨f, hf, hfs⟩ := flatten2_shape hrs2 (by simp)
  obtain ⟨mu, hmu, hmus⟩ :=
    @linear_shape ps.fcMu
      ([tl.getLastD hd0, encIter (tl.length + 1) h,
        encIter (tl.length + 1) w].prod) m.latent_dim n f hfs
  obtain ⟨lv, hlv, hlvs⟩ :=
    @linear_shape ps.fcVar
      ([tl.getLastD hd0, encIter (tl.length + 1) h,
        encIter (tl.length + 1) w].prod) m.latent_dim n f hfs
  refine ⟨mu, lv, ?_, hmus, hlvs⟩
  simp only [encode]
  rw [if_neg (by simp)]
  rw [hr, Option.some_bind, hf, Option.some_bind, hmu, Option.some_bind,
    hlv, Option.some_bind]

/-- Witness for C5: the square-built model `exM3` encodes a `[7, 1, 1, 1]`
batch into `mu` and `log_var` of shape `[7, 4]`. -/
theorem encode_returns_mu_logvar_shapes_witness :
    ∃ mu log_var, encode exM3 ⟨[7, 1, 1, 1], fun _ => 0⟩ = .ok [mu, log_var] ∧
      mu.shape = [7, 4] ∧ log_var.shape = [7, 4] :=
  @encode_returns_mu_logvar_shapes mex dex3 psZero 0 exM3 2 1 1 7
    ⟨[7, 1, 1, 1], fun _ => 0⟩ rfl rfl rfl (by decide)

/-- C5 counterexample: on the model built from the `[2, 1, 1, 1]` batch,
`encode` of a single-image batch `[1, 1, 1, 1]` does not return
`[mu, log_var]` at all: the first encoder `BatchNorm2d` sees one value per
channel in training mode, so the program raises `ValueError` (modelled as a
torch runtime error), while the claim asserts success for every `N`. -/
theorem encode_valueerror_on_single_value_batch :
    build mex dex3 psZero 0 = .ok exM3 ∧
    encode exM3 ⟨[1, 1, 1, 1], fun _ => 0⟩ = .error .runtimeError ∧
    (encode exM3 ⟨[1, 1, 1, 1], fun _ => 0⟩).toOption = none :=
  ⟨rfl, rfl, rfl⟩

/-- C4: `reparameterize(mu, logvar)` with noise draw `eps` equals
`eps * exp(0.5 * logvar) + mu` elementwise (and keeps `mu`'s shape): the
reparameterization trick producing a sample of `N(mu, exp(logvar))` from a
standard-normal `eps`. -/
theorem reparameterize_elementwise (mu logvar eps : Tensor) :
    (reparameterize mu logvar eps).shape = mu.shape ∧
    ∀ idx, (reparameterize mu logvar eps).data idx =
      eps.data idx * Real.exp ((1 / 2 : ℝ) * logvar.data idx) + mu.data idx := by
  refine ⟨rfl, fun idx => ?_⟩
  show eps.data idx * Real.exp ((0.5 : ℝ) * logvar.data idx) + mu.data idx = _
  norm_num

/-- A `[1, 1]` zero tensor used in the concrete witnesses. -/
def tex : Tensor := ⟨[1, 1], fun _ => 0⟩

/-- C2: on a built model, the `loss` entry of `loss_function` equals
`mse_loss(recons, input) + M_N * kld` with `kld` the batch mean of
`-0.5 * sum over the latent dimension of (1 + log_var - mu^2 - exp(log_var))`. -/
theorem loss_function_loss_entry_formula {m : VanillaVAE} (hm : m.built = true)
    (recons input mu log_var : Tensor) (M_N : ℝ) (rg : Bool) {b d : ℕ}
    (hmu : mu.shape = [b, d]) :
    ∃ D, loss_function m recons input mu log_var M_N rg = .ok D ∧
      D.loss.val = mseVal recons input + M_N *
        ((∑ i ∈ Finset.range b, -(0.5 : ℝ) *
          ∑ j ∈ Finset.range d, (1 + log_var.data [i, j] -
            mu.data [i, j] ^ 2 - Real.exp (log_var.data [i, j]))) / (b : ℝ)) := by
  have hcall : loss_function m recons input mu log_var M_N rg = .ok
      { loss := ⟨mseVal recons input + M_N * kldVal mu log_var, rg⟩
        Reconstruction_Loss := Scalar.detach ⟨mseVal recons input, rg⟩
        KLD := Scalar.neg (Scalar.detach ⟨kldVal mu log_var, rg⟩) } := by
    simp only [loss_function]
    rw [if_neg (by simp [hm])]
  refine ⟨_, hcall, ?_⟩
  show mseVal recons input + M_N * kldVal mu log_var = _
  have hk : kldVal mu log_var =
      (∑ i ∈ Finset.range b, -(0.5 : ℝ) *
        ∑ j ∈ Finset.range d, (1 + log_var.data [i, j] -
          mu.data [i, j] ^ 2 - Real.exp (log_var.data [i, j]))) / (b : ℝ) := by
    unfold kldVal
    rw [hmu]
  rw [hk]

/-- Witness for C2 on the built model `exM3` with `[1, 1]` zero tensors. -/
theorem loss_function_loss_entry_formula_witness :
    ∃ D, loss_function exM3 tex tex tex tex 1 true = .ok D ∧
      D.loss.val = mseVal tex tex + 1 *
        ((∑ i ∈ Finset.range 1, -(0.5 : ℝ) *
          ∑ j ∈ Finset.range 1, (1 + tex.data [i, j] -
            tex.data [i, j] ^ 2 - Real.exp (tex.data [i, j]))) /
          (((1 : ℕ) : ℝ))) :=
  @loss_function_loss_entry_formula exM3 rfl tex tex tex tex 1 true 1 1 rfl

/-- C10: in the dict returned by `loss_function`, `loss` equals
`Reconstruction_Loss + M_N * (-KLD)` (so `KLD` is the negation of the term
added to the loss), `Reconstruction_Loss` and `KLD` are detached
(requires_grad false) while `loss` still tracks gradients. -/
theorem loss_function_detach_and_kld_sign {m : VanillaVAE}
    (hm : m.built = true) (recons input mu log_var : Tensor) (M_N : ℝ) :
    ∃ D, loss_function m recons input mu log_var M_N true = .ok D ∧
      D.loss.val = D.Reconstruction_Loss.val + M_N * -D.KLD.val ∧
      D.Reconstruction_Loss.requiresGrad = false ∧
      D.KLD.requiresGrad = false ∧
      D.loss.requiresGrad = true := by
  have hcall : loss_function m recons input mu log_var M_N true = .ok
      { loss := ⟨mseVal recons input + M_N * kldVal mu log_var, true⟩
        Reconstruction_Loss := Scalar.detach ⟨mseVal recons input, true⟩
        KLD := Scalar.neg (Scalar.detach ⟨kldVal mu log_var, true⟩) } := by
    simp only [loss_function]
    rw [if_neg (by simp [hm])]
  refine ⟨_, hcall, ?_, rfl, rfl, rfl⟩
  show mseVal recons input + M_N * kldVal mu log_var =
    mseVal recons input + M_N * -(-(kldVal mu log_var))
  ring

/-- Witness for C10 on the built model `exM3`. -/
theorem loss_function_detach_and_kld_sign_witness :
    ∃ D, loss_function exM3 tex tex tex tex 2 true = .ok D ∧
      D.loss.val = D.Reconstruction_Loss.val + 2 * -D.KLD.val ∧
      D.Reconstruction_Loss.requiresGrad = false ∧
      D.KLD.requiresGrad = false ∧
      D.loss.requiresGrad = true :=
  loss_function_detach_and_kld_sign rfl tex tex tex tex 2

lemma encode_not_attr {m : VanillaVAE} {L : BuiltLayers}
    (h1 : m.built = true) (h2 : m.layers = some L) (x : Tensor) :
    encode m x ≠ .error .attributeError := by
  simp only [encode, h1, h2]
  rw [if_neg (by simp)]
  split
  · simp
  · simp

lemma decode_not_attr {m : VanillaVAE} {L : BuiltLayers}
    (h1 : m.built = true) (h2 : m.layers = some L) (z : Tensor) :
    decode m z ≠ .error .attributeError := by
  simp only [decode, h1, h2]
  rw [if_neg (by simp)]
  split
  · simp
  · simp

lemma loss_function_not_attr {m : VanillaVAE} (h1 : m.built = true)
    (r i mu lv : Tensor) (w : ℝ) (rg : Bool) :
    loss_function m r i mu lv w rg ≠ .error .attributeError := by
  simp only [loss_function]
  rw [if_neg (by simp [h1])]
  simp

lemma forward_not_attr {m : VanillaVAE} {L : BuiltLayers}
    (h1 : m.built = true) (h2 : m.layers = some L) (x e : Tensor) :
    forward m x e ≠ .error .attributeError := by
  have he := encode_not_attr h1 h2 x
  simp only [forward]
  rw [if_neg (by simp [h1])]
  split
  case h_1 err heq =>
    intro hc
    injection hc with hc2
    rw [hc2] at heq
    exact he heq
  case h_2 mu lv heq =>
    have hd := decode_not_attr h1 h2 (reparameterize mu lv e)
    split
    case h_1 err heq2 =>
      intro hc
      injection hc with hc2
      rw [hc2] at heq2
      exact hd heq2
    case h_2 dc heq2 => simp
  case h_3 l heq hne => simp

/-- C3: with `built = False`, `encode`, `decode`, `forward` and
`loss_function` all raise `AttributeError`; on any model returned by
`build` (which sets `built = True`) none of them can return
`AttributeError` any more. -/
theorem built_guard_attributeError :
    (∀ (m : VanillaVAE) (x : Tensor), m.built = false →
      encode m x = .error .attributeError) ∧
    (∀ (m : VanillaVAE) (z : Tensor), m.built = false →
      decode m z = .error .attributeError) ∧
    (∀ (m : VanillaVAE) (x e : Tensor), m.built = false →
      forward m x e = .error .attributeError) ∧
    (∀ (m : VanillaVAE) (r i mu lv : Tensor) (w : ℝ) (rg : Bool),
      m.built = false →
        loss_function m r i mu lv w rg = .error .attributeError) ∧
    (∀ (m : VanillaVAE) (d : Tensor) (ps : BuildParams) (dev : ℕ)
      (m2 : VanillaVAE), build m d ps dev = .ok m2 →
        m2.built = true ∧
        (∀ x, encode m2 x ≠ .error .attributeError) ∧
        (∀ z, decode m2 z ≠ .error .attributeError) ∧
        (∀ x e, forward m2 x e ≠ .error .attributeError) ∧
        (∀ (r i mu lv : Tensor) (w : ℝ) (rg : Bool),
          loss_function m2 r i mu lv w rg ≠ .error .attributeError)) := by
  refine ⟨?_, ?_, ?_, ?_, ?_⟩
  · intro m x hm
    simp [encode, hm]
  · intro m z hm
    simp [decode, hm]
  · intro m x e hm
    simp [forward, hm]
  · intro m r i mu lv w rg hm
    simp [loss_function, hm]
  · intro m d ps dev m2 hb
    obtain ⟨hd0, tl, n0x, hx, wx, hhd, hdsh, hhx, hwx, hcL, hm2⟩ := build_inv hb
    have h1 : m2.built = true := by rw [hm2]
    have h2 : m2.layers = some ⟨ps,
        [tl.getLastD hd0, encIter (tl.length + 1) hx, encIter (tl.length + 1) wx],
        2 ^ (tl.length + 1) * encIter (tl.length + 1) wx + 3 - wx⟩ := by
      rw [hm2]
    exact ⟨h1, encode_not_attr h1 h2, decode_not_attr h1 h2,
      forward_not_attr h1 h2,
      fun r i mu lv w rg => loss_function_not_attr h1 r i mu lv w rg⟩

/-- Witness for C3: the fresh model raises, the built model does not. -/
theorem built_guard_attributeError_witness :
    encode (VanillaVAE.init 1 4 none) dex3 = .error .attributeError ∧
    decode exM3 dex3 ≠ .error .attributeError :=
  ⟨built_guard_attributeError.1 (VanillaVAE.init 1 4 none) dex3 rfl,
   (built_guard_attributeError.2.2.2.2 mex dex3 psZero 0 exM3 rfl).2.2.1 dex3⟩

/-- C6: whenever `encode(input)` returns `[mu, log_var]`, `forward` returns
`[decode(reparameterize(mu, log_var)), input, mu, log_var]` — the input
itself is passed through unchanged as the second element, and the
composition order is encode, then reparameterize, then decode. -/
theorem forward_composes_encode_reparameterize_decode {m : VanillaVAE}
    {input eps mu log_var : Tensor}
    (he : encode m input = .ok [mu, log_var]) :
    forward m input eps =
      (decode m (reparameterize mu log_var eps)).map
        fun dec => [dec, input, mu, log_var] := by
  have hbuilt : m.built = true := by
    rcases hbm : m.built with hfalse | htrue
    · rw [encode, hbm] at he
      simp at he
    · rfl
  simp only [forward]
  rw [if_neg (by simp [hbuilt]), he]
  cases hD : decode m (reparameterize mu log_var eps) with
  | error e => simp [hD, Except.map]
  | ok dc => simp [hD, Except.map]

/-- The input used in the C6 witness. -/
def exInput : Tensor := ⟨[7, 1, 1, 1], fun _ => 0⟩

/-- The `mu` returned by `encode exM3 exInput`. -/
def exMu : Tensor :=
  match encode exM3 exInput with
  | .ok (t :: _) => t
  | _ => ⟨[], fun _ => 0⟩

/-- The `log_var` returned by `encode exM3 exInput`. -/
def exLv : Tensor :=
  match encode exM3 exInput with
  | .ok (_ :: t :: _) => t
  | _ => ⟨[], fun _ => 0⟩

/-- Witness for C6 on the built model `exM3`. -/
theorem forward_composes_encode_reparameterize_decode_witness :
    forward exM3 exInput dex3 =
      (decode exM3 (reparameterize exMu exLv dex3)).map
        fun dec => [dec, exInput, exMu, exLv] :=
  forward_composes_encode_reparameterize_decode (by rfl)

/-- Model states reachable through the public construction API: freshly
initialised, or the result of a successful `build`. -/
inductive Reached : VanillaVAE → Prop
  | init : ∀ (c l : ℕ) (hdims : Option (List ℕ)),
      Reached (VanillaVAE.init c l hdims)
  | step : ∀ (m : VanillaVAE) (d : Tensor) (ps : BuildParams) (dev : ℕ)
      (m2 : VanillaVAE), Reached m → VanillaVAE.build m d ps dev = .ok m2 →
      Reached m2

/-- C8: `__init__` creates no layers and leaves `built = False` (with the
default hidden dims `[32, 64, 128, 256, 512]` when `None` is passed); a
successful `build` sets `built = True`; and on any reachable state,
`built = True` only by virtue of a successful `build`, never reset. -/
theorem lazy_shape_dependent_construction :
    (∀ (c l : ℕ) (hdims : Option (List ℕ)),
      (VanillaVAE.init c l hdims).built = false ∧
      (VanillaVAE.init c l hdims).layers = none) ∧
    (∀ c l : ℕ,
      (VanillaVAE.init c l none).hidden_dims = [32, 64, 128, 256, 512]) ∧
    (∀ (m : VanillaVAE) (d : Tensor) (ps : BuildParams) (dev : ℕ)
      (m2 : VanillaVAE), VanillaVAE.build m d ps dev = .ok m2 →
        m2.built = true) ∧
    (∀ m2 : VanillaVAE, Reached m2 → m2.built = true →
      ∃ m d ps dev, VanillaVAE.build m d ps dev = .ok m2) := by
  refine ⟨fun c l hdims => ⟨rfl, rfl⟩, fun c l => rfl, ?_, ?_⟩
  · intro m d ps dev m2 hb
    obtain ⟨hd0, tl, n0x, hx, wx, hhd, hdsh, hhx, hwx, hcL, hm2⟩ := build_inv hb
    rw [hm2]
  · intro m2 hR
    induction hR with
    | init c l hdims =>
      intro hbuilt
      exact absurd hbuilt (by simp [VanillaVAE.init])
    | step m d ps dev m2 hR hb ih =>
      intro _
      exact ⟨m, d, ps, dev, hb⟩

/-- Witness for C8: the fresh model is unbuilt, the built model is built. -/
theorem lazy_shape_dependent_construction_witness :
    (VanillaVAE.init 1 4 none).built = false ∧ exM3.built = true :=
  ⟨(lazy_shape_dependent_construction.1 1 4 none).1,
   lazy_shape_dependent_construction.2.2.1 mex dex3 psZero 0 exM3 rfl⟩

/-- C9: on an unbuilt model, `sample` fails with `AttributeError` raised
inside its call to `decode`, and `generate` fails with `AttributeError`
raised inside its call to `forward` — neither method checks `built`
itself. -/
theorem unbuilt_sample_generate_attributeError {m : VanillaVAE}
    (hm : m.built = false) (num_samples current_device : ℕ)
    (eps : ℕ → ℕ → ℝ) (x e : Tensor) :
    sample m num_samples current_device eps = .error .attributeError ∧
    generate m x e = .error .attributeError := by
  constructor
  · simp [sample, decode, hm]
  · simp [generate, forward, hm, Except.map]

/-- Witness for C9 on a fresh model. -/
theorem unbuilt_sample_generate_attributeError_witness :
    sample (VanillaVAE.init 1 4 none) 3 0 (fun _ _ => 0) =
      .error .attributeError ∧
    generate (VanillaVAE.init 1 4 none) dex3 dex3 = .error .attributeError :=
  unbuilt_sample_generate_attributeError rfl 3 0 (fun _ _ => 0) dex3 dex3
